import Mathlib

/- Verification of the collection-matching resolver (app/services/qdrant_service.py)
and of the lesson-plan total-duration computation (app/services/lesson_plan_service.py)
of the EAD teachers-tool backend.

Python strings are modelled as `List Char`.  The string built-ins the code uses
(`str.lower`, `str.strip`, `str.replace`, `str.split`, substring tests via `in`,
`int(...)`) are embedded below, restricted to ASCII data, which is the only data
the service handles (collection names, curriculum and subject names, durations).
All definitions are structurally recursive so that every theorem below can be
checked on concrete inputs by evaluation. -/

/-- Converts a Lean string literal into the `List Char` model of a Python string. -/
def s2l (s : String) : List Char := s.data

/-- The ASCII whitespace characters recognised by Python's `str.strip()` and
`str.split()`: space, tab, newline, vertical tab, form feed, carriage return. -/
def isPySpace (c : Char) : Bool :=
  c == ' ' || c == '\t' || c == '\n' || c == '\x0b' || c == '\x0c' || c == '\r'

/-- The uppercase-to-lowercase table for ASCII letters; Python's `str.lower`
acts as the identity on every other ASCII character. -/
def upperLower : List (Char × Char) :=
  [('A', 'a'), ('B', 'b'), ('C', 'c'), ('D', 'd'), ('E', 'e'), ('F', 'f'),
   ('G', 'g'), ('H', 'h'), ('I', 'i'), ('J', 'j'), ('K', 'k'), ('L', 'l'),
   ('M', 'm'), ('N', 'n'), ('O', 'o'), ('P', 'p'), ('Q', 'q'), ('R', 'r'),
   ('S', 's'), ('T', 't'), ('U', 'u'), ('V', 'v'), ('W', 'w'), ('X', 'x'),
   ('Y', 'y'), ('Z', 'z')]

/-- Models Python `str.lower` on one ASCII character. -/
def pyLowerChar (c : Char) : Char :=
  match upperLower.find? (fun p => p.1 == c) with
  | some p => p.2
  | none => c

/-- Models Python `str.lower`. -/
def pyLower (l : List Char) : List Char := l.map pyLowerChar

/-- Models Python `str.strip()` (no argument): removes leading and trailing
whitespace. -/
def pyStrip (l : List Char) : List Char :=
  ((l.dropWhile isPySpace).reverse.dropWhile isPySpace).reverse

/-- Helper for `pyReplace`: the fuel argument (instantiated with the length of
the string, which always suffices because each step consumes at least one
character) only makes the recursion structural. -/
def pyReplaceFuel (pat rep : List Char) : Nat → List Char → List Char
  | _, [] => []
  | 0, l => l
  | fuel + 1, c :: rest =>
    if pat ≠ [] ∧ pat.isPrefixOf (c :: rest) then
      rep ++ pyReplaceFuel pat rep fuel ((c :: rest).drop pat.length)
    else
      c :: pyReplaceFuel pat rep fuel rest

/-- Models Python `str.replace(old, new)`: rewrites every non-overlapping
occurrence of `pat`, scanning left to right.  Every call in the modelled code
passes a non-empty `pat`. -/
def pyReplace (pat rep l : List Char) : List Char :=
  pyReplaceFuel pat rep l.length l

/-- Splits at every character recognised by `p`, keeping empty segments, as
Python `str.split(sep)` does for an explicit one-character separator. -/
def splitKeepEmpty (p : Char → Bool) : List Char → List (List Char)
  | [] => [[]]
  | c :: rest =>
    match splitKeepEmpty p rest with
    | [] => [[c]]
    | g :: gs => if p c then [] :: g :: gs else (c :: g) :: gs

/-- Models Python `name.split('_')` (qdrant_service.py lines 114-115). -/
def splitUnderscore (l : List Char) : List (List Char) :=
  splitKeepEmpty (fun c => c == '_') l

/-- Models Python `str.split()` (no argument): splits on whitespace runs and
drops empty segments. -/
def pySplitWS (l : List Char) : List (List Char) :=
  (splitKeepEmpty isPySpace l).filter (fun g => !g.isEmpty)

/- ### difflib

`score_collection` calls `get_close_matches(word, name.split('_'), n=1, cutoff=0.6)`
and only tests whether the result is non-empty.  The matched strings are short
plain words, so `SequenceMatcher`'s junk and autojunk machinery never fires
(autojunk needs a second sequence of length at least 200), and the junk
extension loops after the main loop of `find_longest_match` are no-ops.  The
model below embeds the no-junk algorithm exactly. -/

/-- The positions `j` in the window `[blo, bhi)` at which `b` holds character
`c`, in increasing order: difflib's `b2j[c]`, restricted to the window exactly
as the `j < blo` / `j >= bhi` tests of the inner loop do. -/
def matchPositions (b : List Char) (c : Char) (blo bhi : Nat) : List Nat :=
  (List.range b.length).filter
    (fun j => decide (blo ≤ j) && decide (j < bhi) && (b.getD j '\x00' == c))

/-- One row of `find_longest_match`'s main loop, over the positions of `a`'s
current character inside `b`: threads the fresh `newj2len` table together with
the best match found so far.  `prev` is the previous row's `j2len` table. -/
def flmRow (i : Nat) (prev : Nat → Nat) :
    List Nat → (Nat → Nat) × Nat × Nat × Nat → (Nat → Nat) × Nat × Nat × Nat
  | [], st => st
  | j :: js, (cur, bi, bj, bs) =>
    let k := (if j = 0 then 0 else prev (j - 1)) + 1
    let cur2 : Nat → Nat := fun j2 => if j2 = j then k else cur j2
    if bs < k then flmRow i prev js (cur2, i + 1 - k, j + 1 - k, k)
    else flmRow i prev js (cur2, bi, bj, bs)

/-- The main loop of `find_longest_match` over `i ∈ [alo, ahi)`. -/
def flmMain (a b : List Char) (blo bhi : Nat) :
    List Nat → (Nat → Nat) × Nat × Nat × Nat → (Nat → Nat) × Nat × Nat × Nat
  | [], st => st
  | i :: is, (prev, bi, bj, bs) =>
    flmMain a b blo bhi is
      (flmRow i prev (matchPositions b (a.getD i '\x00') blo bhi) (fun _ => 0, bi, bj, bs))

/-- Models `SequenceMatcher.find_longest_match` on the windows `a[alo:ahi]` and
`b[blo:bhi]` with no junk: returns `(i, j, size)`, where ties are broken
towards the smallest `i` and then the smallest `j`, as in difflib (a new best
is recorded only on a strictly larger size). -/
def findLongestMatch (a b : List Char) (alo ahi blo bhi : Nat) : Nat × Nat × Nat :=
  (flmMain a b blo bhi (List.range' alo (ahi - alo)) (fun _ => 0, alo, blo, 0)).2

/-- The total size of the blocks of `SequenceMatcher.get_matching_blocks`: the
longest match of a window is taken and the two remaining sub-windows are
decomposed recursively.  `fuel` only makes the recursion structural;
`a.length + b.length + 1` always suffices, because every level removes a block
of size at least one from the windows. -/
def matchingSize (fuel : Nat) (a b : List Char) (alo ahi blo bhi : Nat) : Nat :=
  match fuel with
  | 0 => 0
  | f + 1 =>
    match findLongestMatch a b alo ahi blo bhi with
    | (i, j, k) =>
      if k = 0 then 0
      else matchingSize f a b alo i blo j + k + matchingSize f a b (i + k) ahi (j + k) bhi

/-- Decides `SequenceMatcher(None, x, word).ratio() >= 0.6`, the cutoff test of
`get_close_matches(word, parts, n=1, cutoff=0.6)`: with `M` the total matching
size and `T = len(x) + len(word)`, the float test `2*M/T >= 0.6` amounts to the
rational test `10*M >= 3*T` (for `T = 0` difflib returns ratio 1.0, which the
rational form also accepts; the quick-ratio pre-tests are upper bounds of the
ratio, so they never change the outcome). -/
def closeEnough (x word : List Char) : Bool :=
  decide (3 * (x.length + word.length) ≤
    10 * matchingSize (x.length + word.length + 1) x word 0 x.length 0 word.length)

/-- Models the truthiness of `get_close_matches(word, parts, n=1, cutoff=0.6)`
as used on lines 114-120: whether some part clears the ratio cutoff. -/
def hasCloseMatch (word : List Char) (parts : List (List Char)) : Bool :=
  parts.any (fun x => closeEnough x word)

/-- Models the Python substring test `sub in s`. -/
def pyContains (sub : List Char) : List Char → Bool
  | [] => sub.isEmpty
  | c :: rest => sub.isPrefixOf (c :: rest) || pyContains sub rest

/- ### The collection-matching resolver (qdrant_service.py lines 27-160) -/

/-- The `variations` table of common typos and abbreviations (lines 62-71), in
its insertion order. -/
def variationsTable : List (List Char × List Char) :=
  [(s2l (r"columbia"), s2l (r"colambia")),
   (s2l (r"maths"), s2l (r"math")),
   (s2l (r"mathematics"), s2l (r"math")),
   (s2l (r"sci"), s2l (r"science")),
   (s2l (r"eng"), s2l (r"english")),
   (s2l (r"lang"), s2l (r"language")),
   (s2l (r"lit"), s2l (r"literature"))]

/-- Models `get_variations(term)` (lines 74-87).  Python collects the
variations into a `set`; this model returns the enumeration that generates the
set, possibly with duplicates.  Every use of the result is a pure membership
test (`any` / `in`), so only the members matter; the explicit-enumeration
resolver below together with the determinism theorem makes that precise. -/
def get_variations (term : List Char) : List (List Char) :=
  [term]
    ++ (if term.getLast? == some 's' then [term.dropLast] else [term ++ ['s']])
    ++ variationsTable.foldr
      (fun kv acc =>
        (if pyContains kv.1 term then [pyReplace kv.1 kv.2 term] else [])
          ++ (if pyContains kv.2 term then [pyReplace kv.2 kv.1 term] else [])
          ++ acc)
      []

/-- Models `score_collection(collection_name)` (lines 90-122) with the two
variation sets passed explicitly as enumerations `curVariations` and
`subjVariations`. -/
def scoreCollectionWith (normCurriculum normSubject : List Char)
    (curVariations subjVariations : List (List Char)) (collectionName : List Char) : Nat :=
  let name := pyLower collectionName
  if normCurriculum ++ '_' :: normSubject = name then 100
  else if curVariations.any (fun c => subjVariations.any (fun s => c ++ '_' :: s == name)) then 95
  else
    let hasCurriculum := curVariations.any (fun c => pyContains c name)
    let hasSubject := subjVariations.any (fun s => pyContains s name)
    let base : Nat :=
      if hasCurriculum && hasSubject then 80
      else if hasCurriculum || hasSubject then 40
      else 0
    let parts := splitUnderscore name
    let curriculumClose := hasCloseMatch normCurriculum parts
    let subjectClose := hasCloseMatch normSubject parts
    let bonus : Nat :=
      if curriculumClose && subjectClose then 70
      else if curriculumClose || subjectClose then 35
      else 0
    base + bonus

/-- `score_collection` with the variation sets enumerated as the source
generates them. -/
def score_collection (normCurriculum normSubject collectionName : List Char) : Nat :=
  scoreCollectionWith normCurriculum normSubject
    (get_variations normCurriculum) (get_variations normSubject) collectionName

/-- The normalisation applied to both inputs (lines 56-57):
`curriculum.lower().strip().replace(" ", "_")`. -/
def normalizeInput (s : List Char) : List Char :=
  pyReplace [' '] ['_'] (pyStrip (pyLower s))

/-- Python's stable `scored_collections.sort(key=lambda x: x[1], reverse=True)`
(line 131): the reordering that is weakly decreasing in the score and keeps
entries with equal scores in input order.  Insertion sort with the relation
below computes exactly that reordering (sortedness and stability are proved
further down, and together they characterise the result of a stable sort). -/
def sortByScoreDesc (l : List (List Char × Nat)) : List (List Char × Nat) :=
  l.insertionSort (fun p q => q.2 ≤ p.2)

/-- The observable outcome of `get_best_matching_collection`.  The success
path returns the chosen name (line 139).  Both failure paths — the
empty-registry raise of lines 49-53 and the no-match raise of lines 147-156 —
crash before an exception object is built: the name `HTTPException` is never
bound in qdrant_service.py (the function-local import of line 42 brings in
only `status` from fastapi), Python evaluates the callee name before the
arguments, and the handler of lines 158-160 logs and re-raises the resulting
`NameError: name 'HTTPException' is not defined` unchanged.  The intended 404
payloads (including `dict(scored_collections)` of line 154) are never
constructed, and the diagnostics of lines 142-146 are only logged; both
observable failures are the same bare `NameError`, modelled by one
constructor. -/
inductive ResolveResult where
  | ok (collection : List Char)
  | nameError
deriving DecidableEq

/-- Models `get_best_matching_collection(curriculum, subject)` (lines 27-160)
with the registry's collection names passed in as `collectionNames` and the two
variation sets passed explicitly (see `scoreCollectionWith`).  Both `raise
HTTPException(...)` sites evaluate the unbound name `HTTPException` and crash
with the same `NameError` (see `ResolveResult`). -/
def getBestMatchingCollectionWith (curVariations subjVariations : List (List Char))
    (curriculum subject : List Char) (collectionNames : List (List Char)) : ResolveResult :=
  if collectionNames.isEmpty then ResolveResult.nameError
  else
    let nc := normalizeInput curriculum
    let ns := normalizeInput subject
    let scored := collectionNames.map
      (fun name => (name, scoreCollectionWith nc ns curVariations subjVariations name))
    let sorted := sortByScoreDesc scored
    match sorted.head? with
    | some top =>
      if 40 ≤ top.2 then ResolveResult.ok top.1
      else ResolveResult.nameError
    | none => ResolveResult.nameError

/-- The resolver: `get_best_matching_collection(curriculum, subject)` with the
variation sets enumerated as the source generates them. -/
def get_best_matching_collection (curriculum subject : List Char)
    (collectionNames : List (List Char)) : ResolveResult :=
  getBestMatchingCollectionWith
    (get_variations (normalizeInput curriculum)) (get_variations (normalizeInput subject))
    curriculum subject collectionNames

/- ### The lesson-plan total-duration computation (lesson_plan_service.py) -/

/-- Helper for `pyDigits`: consumes the remaining characters of a digit run in
which single underscores may stand between digits. -/
def pyDigitsAux (acc : Nat) : List Char → Option Nat
  | [] => some acc
  | '_' :: c :: rest =>
    if c.isDigit then pyDigitsAux (acc * 10 + (c.toNat - 48)) rest else none
  | ['_'] => none
  | c :: rest =>
    if c.isDigit then pyDigitsAux (acc * 10 + (c.toNat - 48)) rest else none

/-- The digit run of Python `int(str)` after the optional sign: a non-empty
ASCII digit string in which single underscores may appear between digits
(`int("1_0")` is 10, while a leading, trailing or doubled underscore fails). -/
def pyDigits : List Char → Option Nat
  | [] => none
  | c :: rest => if c.isDigit then pyDigitsAux (c.toNat - 48) rest else none

/-- Models Python `int(s)` on a string: surrounding whitespace is ignored, then
an optional sign and a digit run (ASCII model). -/
def pyInt (s : List Char) : Option Int :=
  match pyStrip s with
  | '+' :: rest => (pyDigits rest).map (fun n => (n : Int))
  | '-' :: rest => (pyDigits rest).map (fun n => -(n : Int))
  | rest => (pyDigits rest).map (fun n => (n : Int))

/-- Decimal rendering of an integer, as a Python f-string does. -/
def intToChars (n : Int) : List Char := (toString n).data

/-- Lines 129-133 of lesson_plan_service.py: the total-duration computation
`total_minutes = len(lesson_plans) * int(request.class_duration.split()[0])`
followed by the hours/minutes formatting.  `none` models the exception path:
`IndexError` when the duration splits into no tokens, `ValueError` when `int`
rejects the first token.  Python's `//` and `%` are floor division and
sign-of-divisor remainder, hence `Int.fdiv` and `Int.fmod`. -/
def computeTotalDuration (classDuration : List Char) (numPlans : Nat) : Option (List Char) :=
  match pySplitWS classDuration with
  | [] => none
  | tok :: _ =>
    match pyInt tok with
    | none => none
    | some n =>
      let totalMinutes : Int := numPlans * n
      let hours : Int := Int.fdiv totalMinutes 60
      let minutes : Int := Int.fmod totalMinutes 60
      some (if 0 < hours then
          intToChars hours ++ s2l (r" hours ") ++ intToChars minutes ++ s2l (r" minutes")
        else intToChars minutes ++ s2l (r" minutes"))

/-- The observable outcome of `generate_lesson_plans` once the generator has
replied: either the `ValueError` re-raised by the handler of line 142-144, or a
successful response carrying `total_duration`. -/
inductive LessonPlanOutcome where
  | valueError
  | ok (totalDuration : List Char)
deriving DecidableEq

/-- Models `generate_lesson_plans(request)` (lesson_plan_service.py lines
67-144) at the point where the external generator has returned a reply that
parsed into `numLessonPlans` lesson-plan entries: the only remaining
computation that can fail is the total-duration arithmetic of lines 129-133,
and the enclosing `except Exception` handler re-raises any such failure as
`ValueError` (line 144). -/
def generate_lesson_plans (classDuration : List Char) (numLessonPlans : Nat) : LessonPlanOutcome :=
  match computeTotalDuration classDuration numLessonPlans with
  | none => LessonPlanOutcome.valueError
  | some d => LessonPlanOutcome.ok d

/-- The scored candidate list of line 125: each known collection paired with
its score against the normalised inputs. -/
def scoredCollections (curriculum subject : List Char)
    (collectionNames : List (List Char)) : List (List Char × Nat) :=
  collectionNames.map
    (fun name => (name, score_collection (normalizeInput curriculum) (normalizeInput subject) name))

/-- The maximal score over the known collections (0 for an empty registry). -/
def maxScoreOf (curriculum subject : List Char) (collectionNames : List (List Char)) : Nat :=
  (collectionNames.map
    (fun name => score_collection (normalizeInput curriculum) (normalizeInput subject) name)).foldr
    max 0

/- ### Basic facts about the string model -/

/-- Lowercasing is idempotent (the table maps into lowercase letters, on which
the lookup fails). -/
theorem pyLowerChar_idem (c : Char) : pyLowerChar (pyLowerChar c) = pyLowerChar c := by
  have key : ∀ q ∈ upperLower, upperLower.find? (fun p => p.1 == q.2) = none := by decide
  cases h : upperLower.find? (fun p => p.1 == c) with
  | none =>
    have h1 : pyLowerChar c = c := by unfold pyLowerChar; rw [h]
    rw [h1]
    exact h1
  | some q =>
    have hq : q ∈ upperLower := List.mem_of_find?_eq_some h
    have h1 : pyLowerChar c = q.2 := by unfold pyLowerChar; rw [h]
    rw [h1]
    unfold pyLowerChar
    rw [key q hq]

/-- With enough fuel, replacing a single character is a pointwise map. -/
theorem pyReplaceFuel_single (a b : Char) :
    ∀ (fuel : Nat) (l : List Char), l.length ≤ fuel →
      pyReplaceFuel [a] [b] fuel l = l.map (fun c => if c = a then b else c) := by
  intro fuel
  induction fuel with
  | zero =>
    intro l hl
    have : l = [] := List.eq_nil_of_length_eq_zero (Nat.le_zero.mp hl)
    subst this
    rfl
  | succ f ih =>
    intro l hl
    cases l with
    | nil => rfl
    | cons c rest =>
      have hrest : rest.length ≤ f := by
        simpa using Nat.succ_le_succ_iff.mp hl
      by_cases hc : c = a
      · subst hc
        have hcond : ([c] : List Char) ≠ [] ∧ List.isPrefixOf [c] (c :: rest) := by
          refine ⟨by simp, ?_⟩
          simp [List.isPrefixOf]
        rw [pyReplaceFuel, if_pos hcond]
        simp [ih rest hrest]
      · have hcond : ¬(([a] : List Char) ≠ [] ∧ List.isPrefixOf [a] (c :: rest)) := by
          rintro ⟨-, hpre⟩
          simp [List.isPrefixOf] at hpre
          exact hc hpre.symm
        rw [pyReplaceFuel, if_neg hcond]
        simp [ih rest hrest, hc]

/-- Replacing the spaces of a string is a pointwise map. -/
theorem pyReplace_space_underscore (l : List Char) :
    pyReplace [' '] ['_'] l = l.map (fun c => if c = ' ' then '_' else c) :=
  pyReplaceFuel_single ' ' '_' l.length l (Nat.le_refl _)

/-- Stripping only removes characters. -/
theorem mem_pyStrip {l : List Char} {x : Char} (h : x ∈ pyStrip l) : x ∈ l := by
  unfold pyStrip at h
  rw [List.mem_reverse] at h
  have h2 := (List.dropWhile_sublist isPySpace).mem h
  rw [List.mem_reverse] at h2
  exact (List.dropWhile_sublist isPySpace).mem h2

/-- Every character of a normalised input is fixed by lowercasing: it is either
the underscore or the lowercase image of an input character. -/
theorem pyLowerChar_fixed_of_mem_normalizeInput (s : List Char) :
    ∀ c ∈ normalizeInput s, pyLowerChar c = c := by
  intro c hc
  unfold normalizeInput at hc
  rw [pyReplace_space_underscore] at hc
  obtain ⟨d, hd, rfl⟩ := List.mem_map.mp hc
  by_cases hsp : d = ' '
  · simp only [hsp, if_pos rfl]
    decide
  · rw [if_neg hsp]
    obtain ⟨e, _, rfl⟩ := List.mem_map.mp (mem_pyStrip hd)
    exact pyLowerChar_idem e

/-- A map that fixes every member of a list fixes the list. -/
theorem map_fixed {α : Type} {f : α → α} :
    ∀ {l : List α}, (∀ c ∈ l, f c = c) → l.map f = l := by
  intro l
  induction l with
  | nil => intro _; rfl
  | cons c rest ih =>
    intro h
    simp only [List.map_cons]
    rw [h c (by simp), ih (fun d hd => h d (by simp [hd]))]

/-- Normalised inputs are unchanged by `str.lower`. -/
theorem pyLower_normalizeInput (s : List Char) :
    pyLower (normalizeInput s) = normalizeInput s :=
  map_fixed (pyLowerChar_fixed_of_mem_normalizeInput s)

/-- The exact candidate `normCurriculum_normSubject` scores 100: the first rule
of `score_collection` fires because lowercasing the candidate leaves it
unchanged. -/
theorem score_collection_exact (cur sub : List Char) :
    score_collection (normalizeInput cur) (normalizeInput sub)
      (normalizeInput cur ++ '_' :: normalizeInput sub) = 100 := by
  have h : pyLower (normalizeInput cur ++ '_' :: normalizeInput sub)
      = normalizeInput cur ++ '_' :: normalizeInput sub := by
    unfold pyLower
    rw [List.map_append, List.map_cons]
    have h1 : pyLowerChar '_' = '_' := by decide
    rw [h1, map_fixed (pyLowerChar_fixed_of_mem_normalizeInput cur),
      map_fixed (pyLowerChar_fixed_of_mem_normalizeInput sub)]
  unfold score_collection scoreCollectionWith
  rw [h]
  simp

/- ### Facts about the stable descending sort -/

instance : IsTotal (List Char × Nat) (fun p q => q.2 ≤ p.2) :=
  ⟨fun a b => le_total b.2 a.2⟩

instance : IsTrans (List Char × Nat) (fun p q => q.2 ≤ p.2) :=
  ⟨fun _ _ _ h1 h2 => le_trans h2 h1⟩

/-- The sort is a permutation of its input. -/
theorem mem_sortByScoreDesc {l : List (List Char × Nat)} {p : List Char × Nat} :
    p ∈ sortByScoreDesc l ↔ p ∈ l :=
  (List.perm_insertionSort _ l).mem_iff

/-- The sorted list is weakly decreasing in the score. -/
theorem sorted_sortByScoreDesc (l : List (List Char × Nat)) :
    List.Pairwise (fun p q => q.2 ≤ p.2) (sortByScoreDesc l) :=
  List.sorted_insertionSort _ l

theorem sortByScoreDesc_eq_nil_iff {l : List (List Char × Nat)} :
    sortByScoreDesc l = [] ↔ l = [] := by
  constructor
  · intro h
    have hp := List.perm_insertionSort (fun p q : List Char × Nat => q.2 ≤ p.2) l
    rw [sortByScoreDesc] at h
    rw [h] at hp
    exact hp.symm.eq_nil
  · intro h
    subst h
    rfl

/-- The head of the sorted list is a member of the input achieving the maximal
score. -/
theorem head_sortByScoreDesc_max {l : List (List Char × Nat)} {p : List Char × Nat}
    (h : (sortByScoreDesc l).head? = some p) : p ∈ l ∧ ∀ x ∈ l, x.2 ≤ p.2 := by
  cases hs : sortByScoreDesc l with
  | nil => rw [hs] at h; simp at h
  | cons q rest =>
    rw [hs] at h
    simp only [List.head?_cons, Option.some.injEq] at h
    subst h
    constructor
    · exact mem_sortByScoreDesc.mp (by rw [hs]; exact List.mem_cons_self _ _)
    · intro x hx
      have hx2 : x ∈ sortByScoreDesc l := mem_sortByScoreDesc.mpr hx
      rw [hs] at hx2
      rcases List.mem_cons.mp hx2 with rfl | hx3
      · exact Nat.le_refl _
      · have hsorted := sorted_sortByScoreDesc l
        rw [hs] at hsorted
        exact List.rel_of_sorted_cons hsorted x hx3

/-- Inserting into a weakly decreasing list places the new entry in front of
every entry of equal score: the score-`s` slice either gains the new entry at
its front or is unchanged. -/
theorem filter_orderedInsert_score (s : Nat) (p : List Char × Nat) :
    ∀ (l : List (List Char × Nat)), List.Pairwise (fun x y => y.2 ≤ x.2) l →
      (List.orderedInsert (fun x y => y.2 ≤ x.2) p l).filter (fun q => q.2 == s)
        = if p.2 = s then p :: l.filter (fun q => q.2 == s)
          else l.filter (fun q => q.2 == s) := by
  intro l
  induction l with
  | nil =>
    intro _
    by_cases hps : p.2 = s <;> simp [List.orderedInsert, List.filter_cons, hps]
  | cons q rest ih =>
    intro hsorted
    rw [List.orderedInsert]
    by_cases hqp : q.2 ≤ p.2
    · rw [if_pos hqp]
      by_cases hps : p.2 = s <;> simp [List.filter_cons, hps]
    · rw [if_neg hqp]
      have hlt : p.2 < q.2 := Nat.lt_of_not_le hqp
      rw [List.filter_cons, ih hsorted.of_cons]
      by_cases hps : p.2 = s
      · have hqs : (q.2 == s) = false := by
          simp only [beq_eq_false_iff_ne, ne_eq]
          omega
        simp [hqs, hps, List.filter_cons]
      · simp only [if_neg hps]
        rw [List.filter_cons]

/-- Stability of the sort: the entries of any fixed score appear in the sorted
list exactly in their input order.  Together with `sorted_sortByScoreDesc` this
characterises the result of Python's stable descending sort. -/
theorem filter_sortByScoreDesc (s : Nat) :
    ∀ (l : List (List Char × Nat)),
      (sortByScoreDesc l).filter (fun q => q.2 == s) = l.filter (fun q => q.2 == s) := by
  intro l
  induction l with
  | nil => rfl
  | cons p rest ih =>
    have hstep : sortByScoreDesc (p :: rest)
        = List.orderedInsert (fun x y => y.2 ≤ x.2) p (sortByScoreDesc rest) := rfl
    rw [hstep, filter_orderedInsert_score s p _ (sorted_sortByScoreDesc rest), ih,
      List.filter_cons]
    by_cases hps : p.2 = s <;> simp [hps]

/-- `find?` returns the head of the filtered list. -/
theorem find?_eq_head?_filter {α : Type} (f : α → Bool) :
    ∀ (l : List α), l.find? f = (l.filter f).head? := by
  intro l
  induction l with
  | nil => rfl
  | cons c rest ih =>
    by_cases hc : f c
    · rw [List.find?_cons_of_pos _ hc, List.filter_cons_of_pos hc, List.head?_cons]
    · rw [List.find?_cons_of_neg _ (by simpa using hc),
        List.filter_cons_of_neg (by simpa using hc), ih]

/-- Every element is bounded by the maximum fold. -/
theorem le_foldr_max {x : Nat} : ∀ {l : List Nat}, x ∈ l → x ≤ l.foldr max 0 := by
  intro l
  induction l with
  | nil => intro h; cases h
  | cons y rest ih =>
    intro h
    rcases List.mem_cons.mp h with rfl | h2
    · exact Nat.le_max_left _ _
    · exact Nat.le_trans (ih h2) (Nat.le_max_right _ _)

/-- The maximum fold is bounded by any pointwise bound. -/
theorem foldr_max_le {k : Nat} : ∀ {l : List Nat}, (∀ x ∈ l, x ≤ k) → l.foldr max 0 ≤ k := by
  intro l
  induction l with
  | nil => intro _; exact Nat.zero_le _
  | cons y rest ih =>
    intro h
    simp only [List.foldr_cons]
    exact Nat.max_le.mpr ⟨h y (by simp), ih (fun x hx => h x (by simp [hx]))⟩

/- ### Unfolding and basic facts of the resolver -/

/-- On a non-empty registry the resolver inspects the head of the stably
sorted score table. -/
theorem resolve_head (cur sub : List Char) (c0 : List Char) (cs : List (List Char)) :
    get_best_matching_collection cur sub (c0 :: cs) =
      match (sortByScoreDesc (scoredCollections cur sub (c0 :: cs))).head? with
      | some top =>
        if 40 ≤ top.2 then ResolveResult.ok top.1
        else ResolveResult.nameError
      | none => ResolveResult.nameError := rfl

/-- Facts carried by membership in the scored list: the name is a known
collection and the recorded score is its score. -/
theorem mem_scoredCollections {cur sub : List Char} {cols : List (List Char)}
    {x : List Char × Nat} (h : x ∈ scoredCollections cur sub cols) :
    x.1 ∈ cols ∧ x.2 = score_collection (normalizeInput cur) (normalizeInput sub) x.1 := by
  obtain ⟨c, hc, rfl⟩ := List.mem_map.mp h
  exact ⟨hc, rfl⟩

theorem mem_scoredCollections_of_mem (cur sub : List Char) {cols : List (List Char)}
    {c : List Char} (h : c ∈ cols) :
    (c, score_collection (normalizeInput cur) (normalizeInput sub) c)
      ∈ scoredCollections cur sub cols :=
  List.mem_map_of_mem _ h

/- ### Set-enumeration independence (for the determinism claim) -/

/-- `any` only depends on the members of the list. -/
theorem any_congr_of_mem_iff {α : Type} {l1 l2 : List α}
    (h : ∀ x, x ∈ l1 ↔ x ∈ l2) (f : α → Bool) : l1.any f = l2.any f := by
  cases h1 : l1.any f <;> cases h2 : l2.any f
  · rfl
  · rw [List.any_eq_true] at h2
    rw [List.any_eq_false] at h1
    obtain ⟨x, hx, hfx⟩ := h2
    exact absurd hfx (h1 x ((h x).mpr hx))
  · rw [List.any_eq_true] at h1
    rw [List.any_eq_false] at h2
    obtain ⟨x, hx, hfx⟩ := h1
    exact absurd hfx (h2 x ((h x).mp hx))
  · rfl

/-- The score only depends on the members of the two variation sets, not on
the order in which Python's `set` enumerates them. -/
theorem scoreCollectionWith_congr (nc ns : List Char) {cv1 cv2 sv1 sv2 : List (List Char)}
    (hc : ∀ x, x ∈ cv1 ↔ x ∈ cv2) (hs : ∀ x, x ∈ sv1 ↔ x ∈ sv2) (name : List Char) :
    scoreCollectionWith nc ns cv1 sv1 name = scoreCollectionWith nc ns cv2 sv2 name := by
  have h95 : cv1.any (fun c => sv1.any (fun s => c ++ '_' :: s == pyLower name))
      = cv2.any (fun c => sv2.any (fun s => c ++ '_' :: s == pyLower name)) := by
    have step1 : cv1.any (fun c => sv1.any (fun s => c ++ '_' :: s == pyLower name))
        = cv2.any (fun c => sv1.any (fun s => c ++ '_' :: s == pyLower name)) :=
      any_congr_of_mem_iff hc _
    rw [step1]
    exact congrArg _ (funext fun c => any_congr_of_mem_iff hs _)
  have hcur : cv1.any (fun c => pyContains c (pyLower name))
      = cv2.any (fun c => pyContains c (pyLower name)) := any_congr_of_mem_iff hc _
  have hsub : sv1.any (fun s => pyContains s (pyLower name))
      = sv2.any (fun s => pyContains s (pyLower name)) := any_congr_of_mem_iff hs _
  unfold scoreCollectionWith
  dsimp only
  rw [h95, hcur, hsub]

/- ### The claims -/

/-- Claim C4 (code_bug): the claim matches the function's documented intent —
its docstring (line 39) and the raise of lines 49-53 mean to fail with the
structured `HTTPException(404, "No collections found in Qdrant")` — but the
code is wrong: `HTTPException` is never imported in qdrant_service.py (line 42
imports only `status`), so on every empty registry the call actually fails
with a bare `NameError: name 'HTTPException' is not defined`, which is exactly
"failing with another kind of error".  This theorem evaluates the code at the
failing inputs: for every curriculum and subject, the empty registry yields
the unstructured `nameError`, never an identifier and never the structured
empty-registry error. -/
theorem c4_empty_registry_failure (cur sub : List Char) :
    get_best_matching_collection cur sub [] = ResolveResult.nameError := rfl

/-- Claim C9 (confirmed): whenever the resolver returns normally, the returned
string is an element of the collection-name list obtained from the registry:
the resolver never fabricates, normalises or otherwise alters the identifier
it returns. -/
theorem c9_returned_name_is_member (cur sub : List Char) (cols : List (List Char))
    (res : List Char)
    (h : get_best_matching_collection cur sub cols = ResolveResult.ok res) : res ∈ cols := by
  cases cols with
  | nil => exact ResolveResult.noConfusion h
  | cons c0 cs =>
    rw [resolve_head] at h
    cases hh : (sortByScoreDesc (scoredCollections cur sub (c0 :: cs))).head? with
    | none =>
      rw [hh] at h
      exact ResolveResult.noConfusion h
    | some top =>
      simp only [hh] at h
      by_cases h40 : 40 ≤ top.2
      · rw [if_pos h40] at h
        have hmem := (mem_scoredCollections (head_sortByScoreDesc_max hh).1).1
        injection h with h1
        rw [← h1]
        exact hmem
      · rw [if_neg h40] at h
        exact ResolveResult.noConfusion h

/-- Witness for C9 at a concrete input. -/
theorem c9_returned_name_is_member_witness :
    s2l (r"ontario_math") ∈ [s2l (r"ontario_math")] :=
  c9_returned_name_is_member (s2l (r"ontario")) (s2l (r"math")) [s2l (r"ontario_math")]
    (s2l (r"ontario_math")) (by decide)

/-- Counterexample to claim C3: with curriculum "columbia" and subject
"history", the single candidate "colambia_x" contains neither normalised term
as a substring, yet the resolver returns it — the typo-variation table turns
"columbia" into "colambia" (substring hit, 40 points) and difflib rates
"colambia" close to "columbia" (ratio 0.875, another 35 points), so the
candidate scores 75 and clears the threshold. -/
theorem c3_zero_evidence_counterexample :
    get_best_matching_collection (s2l (r"columbia")) (s2l (r"history")) [s2l (r"colambia_x")]
        = ResolveResult.ok (s2l (r"colambia_x"))
    ∧ pyContains (normalizeInput (s2l (r"columbia"))) (s2l (r"colambia_x")) = false
    ∧ pyContains (normalizeInput (s2l (r"history"))) (s2l (r"colambia_x")) = false := by
  refine ⟨by decide, by decide, by decide⟩

/-- Claim C3, amended: what the code guarantees is only that every identifier
the resolver returns has a computed score of at least 40 — in particular a
candidate scoring 0 is never returned, even when it is the only candidate (the
resolver fails instead).  But a candidate containing neither normalised term as
a substring can still reach 40 through the typo-variation substrings or the
difflib close-match bonuses and be returned, and a candidate containing only
the subject substring can score more than 40 (40 plus a close-match bonus). -/
theorem c3_returned_scores_at_least_40 (cur sub : List Char) (cols : List (List Char))
    (res : List Char)
    (h : get_best_matching_collection cur sub cols = ResolveResult.ok res) :
    40 ≤ score_collection (normalizeInput cur) (normalizeInput sub) res := by
  cases cols with
  | nil => exact ResolveResult.noConfusion h
  | cons c0 cs =>
    rw [resolve_head] at h
    cases hh : (sortByScoreDesc (scoredCollections cur sub (c0 :: cs))).head? with
    | none =>
      rw [hh] at h
      exact ResolveResult.noConfusion h
    | some top =>
      simp only [hh] at h
      by_cases h40 : 40 ≤ top.2
      · rw [if_pos h40] at h
        have hscore := (mem_scoredCollections (head_sortByScoreDesc_max hh).1).2
        injection h with h1
        rw [← h1, ← hscore]
        exact h40
      · rw [if_neg h40] at h
        exact ResolveResult.noConfusion h

/-- Witness for the amended C3 at a concrete input. -/
theorem c3_returned_scores_at_least_40_witness :
    40 ≤ score_collection (normalizeInput (s2l (r"Quebec"))) (normalizeInput (s2l (r"Science")))
      (s2l (r"ontario_science")) :=
  c3_returned_scores_at_least_40 (s2l (r"Quebec")) (s2l (r"Science"))
    [s2l (r"ontario_science"), s2l (r"ontario_math")] (s2l (r"ontario_science")) (by decide)

/-- Counterexample to claim C2: against the normalised inputs "ontario" and
"mathematics" (fixed points of normalisation), the candidate
"ontario_mathematics_x" scores 150, not an element of the claimed score set
`{0, 40, 80, 100}` — the difflib close-match bonus of 70 is added on top of the
both-substrings score of 80, so the rules are summed, not priority-selected. -/
theorem c2_priority_scores_counterexample :
    normalizeInput (s2l (r"ontario")) = s2l (r"ontario")
    ∧ normalizeInput (s2l (r"mathematics")) = s2l (r"mathematics")
    ∧ score_collection (s2l (r"ontario")) (s2l (r"mathematics")) (s2l (r"ontario_mathematics_x")) = 150
    ∧ (150 : Nat) ∉ [0, 40, 80, 100] := by
  refine ⟨by decide, by decide, by decide, by decide⟩

/-- Claim C2, amended: a candidate's score is 100 for an exact (lowercased)
match of "normCurriculum_normSubject", else 95 for an exact match against some
pair of typo-or-plural variations of the two terms, and otherwise the sum of a
substring component (80 when variations of both terms occur as substrings, 40
when only one side does, 0 otherwise) and a difflib close-match component (70
when both terms have a close match of ratio at least 0.6 among the
underscore-separated parts of the name, 35 when exactly one does, 0 otherwise);
consequently every score lies in {0, 35, 40, 70, 75, 80, 95, 100, 110, 115, 150},
not in {0, 40, 80, 100}. -/
theorem c2_scores_lie_in_sum_set (nc ns name : List Char) :
    score_collection nc ns name ∈ [0, 35, 40, 70, 75, 80, 95, 100, 110, 115, 150] := by
  unfold score_collection scoreCollectionWith
  dsimp only
  split_ifs <;> decide

/-- Counterexample to claim C7: normalising "Common  Core" (two internal
spaces) yields "common__core" with two underscores — internal whitespace runs
are not collapsed to a single underscore — and an internal tab is not replaced
at all, because the code's `.replace(" ", "_")` only rewrites space
characters one by one. -/
theorem c7_normalization_counterexample :
    normalizeInput (s2l (r"Common  Core")) = s2l (r"common__core")
    ∧ s2l (r"common__core") ≠ s2l (r"common_core")
    ∧ normalizeInput ['a', '\t', 'b'] = ['a', '\t', 'b'] := by
  refine ⟨by decide, by decide, by decide⟩

/-- Claim C7, amended: the normalised form is obtained by lowercasing,
stripping leading and trailing whitespace, and then replacing every space
character individually by an underscore: a run of k internal spaces becomes k
underscores ("Common  Core" becomes "common__core"), internal non-space
whitespace such as a tab is left unchanged, and the result never contains a
space. -/
theorem c7_normalization_amended :
    (∀ s : List Char, (normalizeInput s).all (fun c => !(c == ' ')) = true)
    ∧ normalizeInput (s2l (r"Common  Core")) = s2l (r"common__core")
    ∧ normalizeInput ['a', '\t', 'b'] = ['a', '\t', 'b']
    ∧ normalizeInput (s2l (r"  Ontario ")) = s2l (r"ontario") := by
  refine ⟨?_, by decide, by decide, by decide⟩
  intro s
  rw [List.all_eq_true]
  intro c hc
  unfold normalizeInput at hc
  rw [pyReplace_space_underscore] at hc
  obtain ⟨d, hd, rfl⟩ := List.mem_map.mp hc
  by_cases hd2 : d = ' '
  · simp [hd2]
  · simp [hd2]

/-- Counterexample to claim C1: the registry contains the exact string
"ontario_mathematics" = "normCurriculum_normSubject", yet the resolver returns
the other candidate "ontario_mathematics_x": the exact candidate scores exactly
100 (the scoring function returns early), while the other one collects
80 (both substrings) + 70 (difflib close matches for both terms among its
underscore parts) = 150 and wins the sort — the fast path does not dominate. -/
theorem c1_fast_path_counterexample :
    normalizeInput (s2l (r"ontario")) ++ '_' :: normalizeInput (s2l (r"mathematics"))
        = s2l (r"ontario_mathematics")
    ∧ s2l (r"ontario_mathematics")
        ∈ [s2l (r"ontario_mathematics"), s2l (r"ontario_mathematics_x")]
    ∧ get_best_matching_collection (s2l (r"ontario")) (s2l (r"mathematics"))
        [s2l (r"ontario_mathematics"), s2l (r"ontario_mathematics_x")]
        = ResolveResult.ok (s2l (r"ontario_mathematics_x"))
    ∧ s2l (r"ontario_mathematics_x") ≠ s2l (r"ontario_mathematics") := by
  refine ⟨by decide, by decide, by decide, by decide⟩

/-- Claim C1, amended: when the registry contains the exact string
"normCurriculum_normSubject", that candidate scores exactly 100, and the
resolver returns it provided every other candidate scores strictly below 100
(other candidates can reach up to 150 by adding difflib close-match bonuses to
substring scores, and then they win instead). -/
theorem c1_fast_path_amended (cur sub : List Char) (cols : List (List Char))
    (hmem : normalizeInput cur ++ '_' :: normalizeInput sub ∈ cols)
    (hother : ∀ c ∈ cols, c ≠ normalizeInput cur ++ '_' :: normalizeInput sub →
      score_collection (normalizeInput cur) (normalizeInput sub) c < 100) :
    get_best_matching_collection cur sub cols
      = ResolveResult.ok (normalizeInput cur ++ '_' :: normalizeInput sub) := by
  cases cols with
  | nil => cases hmem
  | cons c0 cs =>
    rw [resolve_head]
    have hex := mem_scoredCollections_of_mem cur sub hmem
    rw [score_collection_exact] at hex
    cases hh : (sortByScoreDesc (scoredCollections cur sub (c0 :: cs))).head? with
    | none =>
      rw [List.head?_eq_none_iff, sortByScoreDesc_eq_nil_iff] at hh
      rw [hh] at hex
      exact absurd hex (List.not_mem_nil _)
    | some top =>
      obtain ⟨htopmem, hmax⟩ := head_sortByScoreDesc_max hh
      have h100 : 100 ≤ top.2 := by simpa using hmax _ hex
      obtain ⟨htopcols, htopscore⟩ := mem_scoredCollections htopmem
      by_cases heq : top.1 = normalizeInput cur ++ '_' :: normalizeInput sub
      · simp only [hh]
        rw [if_pos (le_trans (by norm_num) h100), heq]
      · exfalso
        have hlt := hother top.1 htopcols heq
        rw [htopscore] at h100
        omega

/-- Witness for the amended C1 at a concrete input. -/
theorem c1_fast_path_amended_witness :
    get_best_matching_collection (s2l (r"Ontario")) (s2l (r"Mathematics"))
      [s2l (r"common_core_science"), s2l (r"ontario_mathematics")]
      = ResolveResult.ok
        (normalizeInput (s2l (r"Ontario")) ++ '_' :: normalizeInput (s2l (r"Mathematics"))) :=
  c1_fast_path_amended (s2l (r"Ontario")) (s2l (r"Mathematics"))
    [s2l (r"common_core_science"), s2l (r"ontario_mathematics")] (by decide) (by decide)

/-- Claim C6 (confirmed): ties are broken by input order — whenever the maximal
score is at least 40, the resolver returns the first candidate in input order
achieving the maximal score (`find?` over the registry list); in particular,
with two or more candidates sharing the maximal score, the first-listed one
wins, because the sort of line 131 is stable.  The witness instantiates the
spec's example: curriculum "x", subject "math", registry ["b_math", "a_math"]
returns "b_math". -/
theorem c6_ties_broken_by_input_order (cur sub : List Char) (cols : List (List Char))
    (first : List Char)
    (h40 : 40 ≤ maxScoreOf cur sub cols)
    (hfind : cols.find?
        (fun c => score_collection (normalizeInput cur) (normalizeInput sub) c
          == maxScoreOf cur sub cols) = some first) :
    get_best_matching_collection cur sub cols = ResolveResult.ok first := by
  have hfmem : first ∈ cols := List.mem_of_find?_eq_some hfind
  cases cols with
  | nil => cases hfmem
  | cons c0 cs =>
    cases hh : (sortByScoreDesc (scoredCollections cur sub (c0 :: cs))).head? with
    | none =>
      rw [List.head?_eq_none_iff, sortByScoreDesc_eq_nil_iff] at hh
      have hx := mem_scoredCollections_of_mem cur sub
        (List.mem_cons_self c0 cs)
      rw [hh] at hx
      exact absurd hx (List.not_mem_nil _)
    | some top =>
      obtain ⟨htopmem, hmax⟩ := head_sortByScoreDesc_max hh
      obtain ⟨htopcols, htopscore⟩ := mem_scoredCollections htopmem
      have hle : top.2 ≤ maxScoreOf cur sub (c0 :: cs) := by
        rw [htopscore]
        exact le_foldr_max (List.mem_map_of_mem _ htopcols)
      have hge : maxScoreOf cur sub (c0 :: cs) ≤ top.2 := by
        refine foldr_max_le ?_
        intro x hx
        obtain ⟨c, hc, rfl⟩ := List.mem_map.mp hx
        exact hmax _ (mem_scoredCollections_of_mem cur sub hc)
      have htop2 : top.2 = maxScoreOf cur sub (c0 :: cs) := Nat.le_antisymm hle hge
      obtain ⟨rest, hrest⟩ :
          ∃ rest, sortByScoreDesc (scoredCollections cur sub (c0 :: cs)) = top :: rest := by
        cases hs : sortByScoreDesc (scoredCollections cur sub (c0 :: cs)) with
        | nil => rw [hs] at hh; exact absurd hh (by simp)
        | cons a as =>
          rw [hs] at hh
          simp only [List.head?_cons, Option.some.injEq] at hh
          exact ⟨as, by rw [hh]⟩
      have hfilter_head :
          ((sortByScoreDesc (scoredCollections cur sub (c0 :: cs))).filter
            (fun q => q.2 == maxScoreOf cur sub (c0 :: cs))).head? = some top := by
        rw [hrest, List.filter_cons_of_pos (by simp [htop2])]
        rfl
      rw [filter_sortByScoreDesc] at hfilter_head
      have hfind2 : (scoredCollections cur sub (c0 :: cs)).find?
          (fun q => q.2 == maxScoreOf cur sub (c0 :: cs)) = some top := by
        rw [find?_eq_head?_filter]
        exact hfilter_head
      unfold scoredCollections at hfind2
      rw [List.find?_map] at hfind2
      rw [show ((fun q : List Char × Nat => q.2 == maxScoreOf cur sub (c0 :: cs))
          ∘ (fun name => (name,
            score_collection (normalizeInput cur) (normalizeInput sub) name)))
        = (fun c => score_collection (normalizeInput cur) (normalizeInput sub) c
            == maxScoreOf cur sub (c0 :: cs)) from rfl] at hfind2
      rw [hfind] at hfind2
      have hfind3 : (first,
          score_collection (normalizeInput cur) (normalizeInput sub) first) = top := by
        simpa using hfind2
      rw [resolve_head]
      simp only [hh]
      rw [if_pos (htop2 ▸ h40), ← hfind3]

/-- Witness for C6: the spec's order-sensitivity example. -/
theorem c6_ties_broken_by_input_order_witness :
    get_best_matching_collection (s2l (r"x")) (s2l (r"math"))
      [s2l (r"b_math"), s2l (r"a_math")] = ResolveResult.ok (s2l (r"b_math")) :=
  c6_ties_broken_by_input_order (s2l (r"x")) (s2l (r"math"))
    [s2l (r"b_math"), s2l (r"a_math")] (s2l (r"b_math")) (by decide) (by decide)

/-- Claim C5 (code_bug): the claim matches the intent of lines 141-156 — fail
with a no-match `HTTPException(404)` carrying the full registry list, the two
original request terms and the sorted score table — and the diagnostics are
indeed computed and logged (lines 142-146, 133).  But the raise of line 147
evaluates the unbound name `HTTPException` first, so the error that actually
propagates (re-raised unchanged by the handler of lines 158-160) is a bare
`NameError` carrying none of that payload; the detail dictionary of lines
149-155, including `dict(scored_collections)`, is never constructed.  This
theorem evaluates the code at the failing inputs: whenever every candidate
scores below 40, the resolver's observable outcome is the unstructured
`nameError`, with no list, no terms and no score table attached. -/
theorem c5_low_score_failure_no_diagnostics (cur sub : List Char) (cols : List (List Char))
    (hne : cols ≠ [])
    (hlow : ∀ c ∈ cols, score_collection (normalizeInput cur) (normalizeInput sub) c < 40) :
    get_best_matching_collection cur sub cols = ResolveResult.nameError := by
  obtain ⟨c0, cs, rfl⟩ : ∃ c0 cs, cols = c0 :: cs := by
    cases cols with
    | nil => exact absurd rfl hne
    | cons a as => exact ⟨a, as, rfl⟩
  cases hh : (sortByScoreDesc (scoredCollections cur sub (c0 :: cs))).head? with
  | none =>
    rw [resolve_head]
    simp only [hh]
  | some top =>
    obtain ⟨htopmem, _⟩ := head_sortByScoreDesc_max hh
    obtain ⟨htopcols, htopscore⟩ := mem_scoredCollections htopmem
    have h40 : ¬40 ≤ top.2 := by
      rw [htopscore]
      have := hlow top.1 htopcols
      omega
    rw [resolve_head]
    simp only [hh]
    rw [if_neg h40]

/-- Witness for C5: the spec's all-scores-zero example, curriculum "Quebec" and
subject "History" against ["ontario_math", "ontario_science"], ends in the
bare name error. -/
theorem c5_low_score_failure_no_diagnostics_witness :
    get_best_matching_collection (s2l (r"Quebec")) (s2l (r"History"))
        [s2l (r"ontario_math"), s2l (r"ontario_science")] = ResolveResult.nameError :=
  c5_low_score_failure_no_diagnostics (s2l (r"Quebec")) (s2l (r"History"))
    [s2l (r"ontario_math"), s2l (r"ontario_science")] (by decide) (by decide)

/-- Claim C8 (confirmed): the resolver is deterministic.  The model is a pure
function of its arguments, and the only part of the Python code whose order of
evaluation is not fixed by the arguments — the enumeration order of the
`get_variations` sets, which may differ between runs because string hashing is
randomised — cannot influence the result: the resolver computes the same value
for any two enumerations of the variation sets with the same members, so two
calls with identical curriculum, subject and registry list (same elements in
the same order) yield identical results — the same returned identifier or the
same failure outcome. -/
theorem c8_resolver_deterministic (cur sub : List Char) (cols : List (List Char))
    (cv1 cv2 sv1 sv2 : List (List Char))
    (hc : ∀ x, x ∈ cv1 ↔ x ∈ cv2) (hs : ∀ x, x ∈ sv1 ↔ x ∈ sv2) :
    getBestMatchingCollectionWith cv1 sv1 cur sub cols
      = getBestMatchingCollectionWith cv2 sv2 cur sub cols := by
  have hfun : (fun name => (name,
        scoreCollectionWith (normalizeInput cur) (normalizeInput sub) cv1 sv1 name))
      = (fun name => (name,
        scoreCollectionWith (normalizeInput cur) (normalizeInput sub) cv2 sv2 name)) :=
    funext fun name => congrArg (Prod.mk name)
      (scoreCollectionWith_congr (normalizeInput cur) (normalizeInput sub) hc hs name)
  unfold getBestMatchingCollectionWith
  dsimp only
  rw [hfun]

/-- Witness for C8: a transposed enumeration of both variation sets gives the
same resolution. -/
theorem c8_resolver_deterministic_witness :
    getBestMatchingCollectionWith
        [s2l (r"ontario"), s2l (r"ontarios")] [s2l (r"math"), s2l (r"maths"), s2l (r"mathematics")]
        (s2l (r"Ontario")) (s2l (r"Math")) [s2l (r"ontario_mathematics")]
      = getBestMatchingCollectionWith
        [s2l (r"ontarios"), s2l (r"ontario")] [s2l (r"mathematics"), s2l (r"maths"), s2l (r"math")]
        (s2l (r"Ontario")) (s2l (r"Math")) [s2l (r"ontario_mathematics")] :=
  c8_resolver_deterministic (s2l (r"Ontario")) (s2l (r"Math")) [s2l (r"ontario_mathematics")]
    [s2l (r"ontario"), s2l (r"ontarios")] [s2l (r"ontarios"), s2l (r"ontario")]
    [s2l (r"math"), s2l (r"maths"), s2l (r"mathematics")]
    [s2l (r"mathematics"), s2l (r"maths"), s2l (r"math")]
    (fun x => by simp [List.mem_cons]; tauto)
    (fun x => by simp [List.mem_cons]; tauto)

/-- Claim C10 (confirmed): `generate_lesson_plans` hides a format requirement
on `class_duration` — whenever its first whitespace-separated token is not
accepted by Python's `int` (for example "1hour", or "an" from "an hour"), the
call fails with `ValueError` even when the generator returned perfectly valid
JSON, because line 130 computes
`len(lesson_plans) * int(class_duration.split()[0])`; and when the first token
parses as the integer n and the reply holds k lesson plans, `total_duration`
is formatted from k*n minutes as "H hours M minutes" when an hour is reached
and as "M minutes" otherwise. -/
theorem c10_duration_parsing :
    (∀ (cd : List Char) (k : Nat) (tok : List Char) (rest : List (List Char)),
        pySplitWS cd = tok :: rest → pyInt tok = none →
        generate_lesson_plans cd k = LessonPlanOutcome.valueError)
    ∧ (∀ (cd : List Char) (k : Nat) (tok : List Char) (rest : List (List Char)) (n : Nat),
        pySplitWS cd = tok :: rest → pyInt tok = some (n : Int) →
        generate_lesson_plans cd k = LessonPlanOutcome.ok
          (if 0 < k * n / 60 then
            (toString (k * n / 60)).data ++ s2l (r" hours ")
              ++ (toString (k * n % 60)).data ++ s2l (r" minutes")
          else (toString (k * n % 60)).data ++ s2l (r" minutes"))) := by
  constructor
  · intro cd k tok rest hsplit hint
    have hctd : computeTotalDuration cd k = none := by
      simp only [computeTotalDuration, hsplit, hint]
    simp only [generate_lesson_plans, hctd]
  · intro cd k tok rest n hsplit hint
    have e1 : ((k : Int) * (n : Int)) = ((k * n : Nat) : Int) := by push_cast; ring
    have e2 : ∀ m : Nat, intToChars ((m : Int)) = (toString m).data := fun m => rfl
    have hctd : computeTotalDuration cd k = some
        (if 0 < k * n / 60 then
          (toString (k * n / 60)).data ++ s2l (r" hours ")
            ++ (toString (k * n % 60)).data ++ s2l (r" minutes")
        else (toString (k * n % 60)).data ++ s2l (r" minutes")) := by
      simp only [computeTotalDuration, hsplit, hint]
      rw [e1, Int.fdiv_eq_ediv _ (by norm_num), Int.fmod_eq_emod _ (by norm_num)]
      rw [show ((k * n : Nat) : Int) / (60 : Int) = ((k * n / 60 : Nat) : Int) by
        exact_mod_cast rfl]
      rw [show ((k * n : Nat) : Int) % (60 : Int) = ((k * n % 60 : Nat) : Int) by
        exact_mod_cast rfl]
      rw [e2, e2]
      simp only [Int.natCast_pos]
    simp only [generate_lesson_plans, hctd]

/-- Witness for C10: "1hour" raises (surfaced as `ValueError`), while four
45-minute lessons format as "3 hours 0 minutes". -/
theorem c10_duration_parsing_witness :
    generate_lesson_plans (s2l (r"1hour")) 3 = LessonPlanOutcome.valueError
    ∧ generate_lesson_plans (s2l (r"45 minutes")) 4
      = LessonPlanOutcome.ok (s2l (r"3 hours 0 minutes")) := by
  constructor
  · exact c10_duration_parsing.1 (s2l (r"1hour")) 3 (s2l (r"1hour")) [] (by decide) (by decide)
  · have h := c10_duration_parsing.2 (s2l (r"45 minutes")) 4 (s2l (r"45")) [s2l (r"minutes")]
      45 (by decide) (by decide)
    exact h.trans (by decide)
